import Mathlib

/-!
# Verification of `Site_download_tool.py`

A shallow embedding of the site-mirroring downloader
(`src/Site_download_tool/Site_download_tool.py`) and proofs about it.

* URL handling follows CPython's `urllib.parse.urlsplit` / `unquote`
  (the standard-library functions the source calls), modelled for the
  URL shapes the tool manipulates: `urlsplit` performs the
  scheme / netloc / fragment / query split exactly as CPython does
  (netloc validity checks that raise `ValueError` on bracketed hosts are
  not modelled); `unquote` decodes each `%XX` ASCII escape to the byte's
  character (CPython additionally groups consecutive escaped bytes into
  UTF-8 sequences; for ASCII escapes, the only ones arising here, the two
  agree).
* The filesystem is a map from path strings to optional byte lists;
  `os.path.join` is modelled with POSIX separators.
* The network (HEAD / GET responses, transport exceptions) is an
  explicit environment, so every theorem quantifies over all server
  behaviours.
-/

namespace SiteDownload

/-! ## CPython `urllib.parse.urlsplit` model -/

structure SplitResult where
  scheme : String
  netloc : String
  path : String
  query : String
  fragment : String
deriving DecidableEq, Repr

/-- CPython's `scheme_chars`: ASCII letters, digits, `+`, `-`, `.`. -/
def isSchemeChar (c : Char) : Bool :=
  c.isAlpha || c.isDigit || c = '+' || c = '-' || c = '.'

/-- `urlsplit` on a character list: scheme split (lower-cased), `//netloc`
split up to the next `/`, `?` or `#`, then fragment split at the first `#`,
then query split at the first `?`, in CPython's order. -/
def urlsplitList (cs : List Char) : SplitResult :=
  let pre := cs.takeWhile (· ≠ ':')
  let (scheme, rest) :=
    if cs.contains ':' ∧ pre ≠ [] ∧ pre.all isSchemeChar then
      (pre.map Char.toLower, cs.drop (pre.length + 1))
    else ([], cs)
  let (netloc, rest) :=
    match rest with
    | '/' :: '/' :: r =>
      let nl := r.takeWhile (fun c => c ≠ '/' ∧ c ≠ '?' ∧ c ≠ '#')
      (nl, r.drop nl.length)
    | _ => ([], rest)
  let (rest, fragment) :=
    if rest.contains '#' then
      (rest.takeWhile (· ≠ '#'), rest.drop ((rest.takeWhile (· ≠ '#')).length + 1))
    else (rest, [])
  let (path, query) :=
    if rest.contains '?' then
      (rest.takeWhile (· ≠ '?'), rest.drop ((rest.takeWhile (· ≠ '?')).length + 1))
    else (rest, [])
  ⟨String.mk scheme, String.mk netloc, String.mk path,
   String.mk query, String.mk fragment⟩

def urlsplit (url : String) : SplitResult :=
  urlsplitList url.toList

/-! ## CPython `urllib.parse.unquote` model -/

def hexVal (c : Char) : Option Nat :=
  if '0' ≤ c ∧ c ≤ '9' then some (c.toNat - '0'.toNat)
  else if 'a' ≤ c ∧ c ≤ 'f' then some (c.toNat - 'a'.toNat + 10)
  else if 'A' ≤ c ∧ c ≤ 'F' then some (c.toNat - 'A'.toNat + 10)
  else none

def unquoteList : List Char → List Char
  | '%' :: c1 :: c2 :: rest =>
    match hexVal c1, hexVal c2 with
    | some h, some l => Char.ofNat (16 * h + l) :: unquoteList rest
    | _, _ => '%' :: unquoteList (c1 :: c2 :: rest)
  | c :: rest => c :: unquoteList rest
  | [] => []

def unquote (s : String) : String :=
  String.mk (unquoteList s.toList)

/-! ## Python `int(str)` and small string helpers -/

/-- Python `int(s)` on a decimal string: surrounding whitespace allowed,
optional sign, then a nonempty digit run; anything else raises
(modelled as `none`; CPython's `_` digit grouping is not modelled). -/
def pythonInt (s : String) : Option Int :=
  let cs := s.toList.dropWhile Char.isWhitespace
  let cs := (cs.reverse.dropWhile Char.isWhitespace).reverse
  let signDigits : Bool × List Char :=
    match cs with
    | '-' :: rest => (true, rest)
    | '+' :: rest => (false, rest)
    | _ => (false, cs)
  if signDigits.2 ≠ [] ∧ signDigits.2.all Char.isDigit then
    let n : Nat := signDigits.2.foldl (fun acc c => 10 * acc + (c.toNat - '0'.toNat)) 0
    some (if signDigits.1 then -(n : Int) else (n : Int))
  else none

/-- Python `s.lstrip("/")`. -/
def lstripSlash (s : String) : String :=
  String.mk (s.toList.dropWhile (· = '/'))

/-- Python `s.startswith(pre)`. -/
def pyStartsWith (s pre : String) : Bool :=
  pre.toList.isPrefixOf s.toList

/-- Python `s.endswith(suf)`. -/
def pyEndsWith (s suf : String) : Bool :=
  suf.toList.isSuffixOf s.toList

/-- `os.path.join(a, b)` with POSIX separators. -/
def posixJoin (a b : String) : String :=
  if pyStartsWith b "/" then b
  else if a = "" ∨ pyEndsWith a "/" then a ++ b
  else a ++ "/" ++ b

/-! ## The source's pure URL functions -/

/-- `is_same_host_and_path` (source lines 43–50): same scheme and netloc,
and the candidate's raw path starts with the base's raw path. -/
def is_same_host_and_path (base candidate : String) : Bool :=
  let b := urlsplit base
  let c := urlsplit candidate
  if b.scheme ≠ c.scheme ∨ b.netloc ≠ c.netloc then false
  else pyStartsWith c.path b.path

/-- `normalize_local_path` (source lines 53–62): strip the base path
prefix (or the leading slashes as a fallback), percent-decode, join under
`local_root`. -/
def normalize_local_path (base_url file_url local_root : String) : String :=
  let b := urlsplit base_url
  let f := urlsplit file_url
  let rel :=
    if pyStartsWith f.path b.path then String.mk (f.path.toList.drop b.path.length)
    else lstripSlash f.path
  let rel := unquote rel
  posixJoin local_root (lstripSlash rel)

/-! ## Lexical path resolution (specification-side judge for containment)

These are not part of the source; they give meaning to "the returned path
lies outside `localRoot`": resolve `.`/`..`/empty segments lexically and
check segment-wise prefix containment. -/

def resolveStack (segs : List String) : List String :=
  segs.foldl
    (fun st seg =>
      if seg = "" ∨ seg = "." then st
      else if seg = ".." then st.dropLast
      else st ++ [seg]) []

/-- Split a character list at `/` into path segments. -/
def splitSlashAux : List Char → List Char → List String
  | acc, [] => [String.mk acc.reverse]
  | acc, '/' :: rest => String.mk acc.reverse :: splitSlashAux [] rest
  | acc, c :: rest => splitSlashAux (c :: acc) rest

def pathSegments (p : String) : List String :=
  splitSlashAux [] p.toList

/-- The lexically resolved segment list of a path string. -/
def resolvedSegments (p : String) : List String :=
  resolveStack (pathSegments p)

/-- `p` stays inside `root` iff `root`'s resolved segments are a prefix of
`p`'s resolved segments. -/
def staysUnder (root p : String) : Bool :=
  (resolvedSegments root).isPrefixOf (resolvedSegments p)

/-! ## Configuration constants (source lines 24–27) -/

def RETRY : Nat := 3
def WORKERS : Nat := 8
def REQUEST_TIMEOUT : Nat := 20
/-- Source value `0.0`; only its truthiness is ever tested. -/
def SLEEP_BETWEEN_REQUESTS : Nat := 0

/-! ## Fetcher (`try_head` / `download_file`, source lines 65–124)

The local filesystem is a map from path strings to optional byte lists.
The network is an environment giving the outcome of the `i`-th
`session.head` and `session.get` call; a GET response carries the chunk
lists actually delivered and written before any exception, and `ok` says
whether streaming, writing and the `os.replace` all completed without an
exception (`ok = false` leaves exactly `written` in the temp file and
takes the `except` branch). `mkdirExc` models `os.makedirs` raising, e.g.
permission denied. Observable actions are recorded as an event trace. -/

def Fs : Type := String → Option (List Nat)

def Fs.set (fs : Fs) (p : String) (v : Option (List Nat)) : Fs :=
  fun q => if q = p then v else fs q

inductive Outcome
  | downloaded
  | skipped
  | failed
deriving DecidableEq, Repr

inductive Event
  | headAttempt
  | getAttempt
  | sleepEvent
  | pbarUpdate
deriving DecidableEq, Repr

structure HeadResp where
  status : Nat
  contentLength : Option String
deriving DecidableEq, Repr

inductive HeadAttempt
  | exc
  | resp (r : HeadResp)
deriving DecidableEq, Repr

inductive GetAttempt
  | exc
  | resp (status : Nat) (written : List (List Nat)) (ok : Bool)
deriving DecidableEq, Repr

structure NetEnv where
  mkdirExc : Bool
  heads : Nat → HeadAttempt
  gets : Nat → GetAttempt

/-- The retry loop of `try_head` (source lines 65–73): return the first
response; on an exception, sleep 1s and retry; after `RETRY` failures
return `None`. `i` is the index of the next `session.head` call, `n` the
remaining attempts. -/
def tryHeadLoop (heads : Nat → HeadAttempt) : Nat → Nat → Option HeadResp × List Event
  | _, 0 => (none, [])
  | i, n + 1 =>
    match heads i with
    | .resp r => (some r, [Event.headAttempt])
    | .exc =>
      let rec' := tryHeadLoop heads (i + 1) n
      (rec'.1, Event.headAttempt :: Event.sleepEvent :: rec'.2)

def try_head (heads : Nat → HeadAttempt) : Option HeadResp × List Event :=
  tryHeadLoop heads 0 RETRY

/-- The transfer retry loop of `download_file` (source lines 97–124).
On status 200/206 the chunks are streamed to `local_path ++ ".part"`;
if everything completed (`ok`), `os.replace` moves the temp file onto
`local_path` and the outcome is `downloaded`. A transport exception
(`.exc`, or `ok = false` mid-write) is caught and followed by
`time.sleep(1)`; any other status only logs a warning. Exhausted
attempts give `failed`. -/
def transferLoop (gets : Nat → GetAttempt) (local_path : String) :
    Nat → Nat → Fs → Outcome × Fs × List Event
  | _, 0, fs => (.failed, fs, [Event.pbarUpdate])
  | i, n + 1, fs =>
    match gets i with
    | .exc =>
      let r := transferLoop gets local_path (i + 1) n fs
      (r.1, r.2.1, Event.getAttempt :: Event.sleepEvent :: r.2.2)
    | .resp status written ok =>
      if status = 200 ∨ status = 206 then
        let tmp := local_path ++ ".part"
        let fsW := fs.set tmp (some written.flatten)
        if ok then
          let fsR := (fsW.set local_path (fsW tmp)).set tmp none
          (.downloaded, fsR,
            Event.getAttempt :: Event.pbarUpdate ::
              (if SLEEP_BETWEEN_REQUESTS ≠ 0 then [Event.sleepEvent] else []))
        else
          let r := transferLoop gets local_path (i + 1) n fsW
          (r.1, r.2.1, Event.getAttempt :: Event.sleepEvent :: r.2.2)
      else
        let r := transferLoop gets local_path (i + 1) n fs
        (r.1, r.2.1, Event.getAttempt :: r.2.2)

structure DfResult where
  result : Except Unit Outcome
  fs : Fs
  events : List Event

/-- Source lines 81–83: `Content-Length` is read only from a HEAD
response with status 200. -/
def contentLengthOf : Option HeadResp → Option String
  | some r => if r.status = 200 then r.contentLength else none
  | none => none

/-- Source lines 85–94: skip when the local file exists, a
`Content-Length` string was obtained, `int()` parses it, and the sizes
agree exactly; the guarded `try` means an `int()` parse failure just
falls through to the transfer loop. -/
def skipCheck (fs : Fs) (local_path : String) (content_length : Option String) : Bool :=
  match fs local_path, content_length with
  | some data, some cl =>
    match pythonInt cl with
    | some n => decide ((data.length : Int) = n)
    | none => false
  | _, _ => false

/-- `download_file` (source lines 76–124). `ensure_dir` runs outside any
`try`, so a filesystem exception there propagates (`Except.error`).
Then the HEAD probe, the skip decision, and the transfer retry loop. -/
def download_file (env : NetEnv) (local_path : String) (fs : Fs) : DfResult :=
  if env.mkdirExc then ⟨Except.error (), fs, []⟩
  else
    let he := try_head env.heads
    if skipCheck fs local_path (contentLengthOf he.1) then
      ⟨Except.ok .skipped, fs, he.2 ++ [Event.pbarUpdate]⟩
    else
      let t := transferLoop env.gets local_path 0 RETRY fs
      ⟨Except.ok t.1, t.2.1, he.2 ++ t.2.2⟩

/-! ## Link Extractor (`parse_directory_listing`, source lines 127–154)

The page environment `pages` gives, for each page URL, the `href`
attribute values of the page's anchors in document order (anchors
without an `href` omitted; a failed or non-200 directory GET is the
empty list), and `resolve` models `urllib.parse.urljoin` relative to
the page URL. The function drops falsy (`""`) hrefs and the
parent/root navigation hrefs `"../"` and `"/"`, resolves the rest, and
keeps a resolved link only if it passes `is_same_host_and_path`
against `base_url`. The Python `set` is modelled as the list in
extraction order; every property proved about it is order-independent. -/

def parse_directory_listing (pages : String → List String)
    (resolve : String → String → String) (url base_url : String) : List String :=
  (((pages url).filter
      (fun href => ¬(href = "" ∨ href = "../" ∨ href = "/"))).map
    (resolve url)).filter (fun full => is_same_host_and_path base_url full)

/-! ## Crawler (`collect_all_links`, source lines 157–182)

The `while to_visit` loop is modelled as a step function plus fuel; the
termination theorem shows that some fuel empties the queue. `trace`
records each URL for which the body of the loop actually ran (the
"Crawling:" log line), i.e. the directory pages fetched. -/

structure CrawlState where
  toVisit : List String
  visited : Finset String
  file_links : Finset String
  trace : List String

/-- The body of the `for link in links` loop: a link ending in `/` is
enqueued unless already visited or already pending; any other link is
added to `file_links`. -/
def processLink (st : CrawlState) (link : String) : CrawlState :=
  if pyEndsWith link "/" then
    if link ∉ st.visited ∧ link ∉ st.toVisit then
      { st with toVisit := st.toVisit ++ [link] }
    else st
  else { st with file_links := insert link st.file_links }

/-- One iteration of the `while to_visit` loop: pop the head; if already
visited, continue; else mark visited, extract the page's links (the
`links` argument is `parse_directory_listing · start_url` composed with
the environment) and process each. -/
def crawlStep (links : String → List String) (s : CrawlState) : CrawlState :=
  match s.toVisit with
  | [] => s
  | cur :: rest =>
    if cur ∈ s.visited then { s with toVisit := rest }
    else
      let s1 : CrawlState :=
        { toVisit := rest, visited := insert cur s.visited,
          file_links := s.file_links, trace := s.trace ++ [cur] }
      (links cur).foldl processLink s1

def crawlRun (links : String → List String) : Nat → CrawlState → CrawlState
  | 0, s => s
  | n + 1, s =>
    match s.toVisit with
    | [] => s
    | _ :: _ => crawlRun links n (crawlStep links s)

def crawlInit (start_url : String) : CrawlState :=
  ⟨[start_url], ∅, ∅, []⟩

/-- `collect_all_links start_url` with the directory graph given by the
page environment: the `file_links` set once the given number of loop
iterations has run. -/
def collect_all_links (pages : String → List String)
    (resolve : String → String → String) (start_url : String) (fuel : Nat) :
    Finset String :=
  (crawlRun (fun cur => parse_directory_listing pages resolve cur start_url)
    fuel (crawlInit start_url)).file_links

/-- The directory-edge relation of the crawl: `v` is a directory link
extracted from page `u`. -/
def dirEdge (links : String → List String) (u v : String) : Prop :=
  v ∈ links u ∧ pyEndsWith v "/" = true

end SiteDownload

namespace SiteDownload

/-! # Theorems for the claims -/

/-! Equations and characterizations for the crawler. -/

theorem crawlStep_nil (links : String → List String) (s : CrawlState)
    (h : s.toVisit = []) : crawlStep links s = s := by
  unfold crawlStep
  rw [h]

theorem crawlStep_visited (links : String → List String) (s : CrawlState)
    (cur : String) (rest : List String) (h : s.toVisit = cur :: rest)
    (hv : cur ∈ s.visited) : crawlStep links s = { s with toVisit := rest } := by
  unfold crawlStep
  rw [h]
  simp [hv]

theorem crawlStep_new (links : String → List String) (s : CrawlState)
    (cur : String) (rest : List String) (h : s.toVisit = cur :: rest)
    (hv : cur ∉ s.visited) :
    crawlStep links s = (links cur).foldl processLink
      { toVisit := rest, visited := insert cur s.visited,
        file_links := s.file_links, trace := s.trace ++ [cur] } := by
  unfold crawlStep
  rw [h]
  simp [hv]

theorem crawlRun_zero (links : String → List String) (s : CrawlState) :
    crawlRun links 0 s = s := rfl

theorem crawlRun_nil (links : String → List String) (s : CrawlState)
    (h : s.toVisit = []) : ∀ n, crawlRun links n s = s := by
  intro n
  cases n with
  | zero => rfl
  | succ n =>
    unfold crawlRun
    rw [h]

theorem crawlRun_succ (links : String → List String) (s : CrawlState)
    (cur : String) (rest : List String) (h : s.toVisit = cur :: rest) (n : Nat) :
    crawlRun links (n + 1) s = crawlRun links n (crawlStep links s) := by
  conv_lhs => unfold crawlRun
  rw [h]

theorem processLink_visited (st : CrawlState) (a : String) :
    (processLink st a).visited = st.visited := by
  unfold processLink
  by_cases hd : pyEndsWith a "/" = true
  · by_cases hc : a ∉ st.visited ∧ a ∉ st.toVisit <;> simp [hd, hc]
  · simp [hd]

theorem processLink_trace (st : CrawlState) (a : String) :
    (processLink st a).trace = st.trace := by
  unfold processLink
  by_cases hd : pyEndsWith a "/" = true
  · by_cases hc : a ∉ st.visited ∧ a ∉ st.toVisit <;> simp [hd, hc]
  · simp [hd]

theorem processLink_toVisit_mono (st : CrawlState) (a v : String)
    (hv : v ∈ st.toVisit) : v ∈ (processLink st a).toVisit := by
  unfold processLink
  by_cases hd : pyEndsWith a "/" = true
  · by_cases hc : a ∉ st.visited ∧ a ∉ st.toVisit <;>
      simp [hd, hc, List.mem_append, hv]
  · simp [hd, hv]

theorem processLink_toVisit_origin (st : CrawlState) (a v : String)
    (hv : v ∈ (processLink st a).toVisit) :
    v ∈ st.toVisit ∨ (v = a ∧ pyEndsWith a "/" = true) := by
  unfold processLink at hv
  by_cases hd : pyEndsWith a "/" = true
  · by_cases hc : a ∉ st.visited ∧ a ∉ st.toVisit
    · simp only [hd, hc, if_true] at hv
      rcases List.mem_append.1 hv with h | h
      · exact Or.inl h
      · exact Or.inr ⟨List.mem_singleton.1 h, hd⟩
    · simp only [hd, hc, if_true, if_false] at hv
      exact Or.inl hv
  · simp only [hd, if_false] at hv
    exact Or.inl hv

theorem processLink_covers (st : CrawlState) (a : String)
    (hd : pyEndsWith a "/" = true) :
    a ∈ st.visited ∨ a ∈ (processLink st a).toVisit := by
  unfold processLink
  by_cases hc : a ∉ st.visited ∧ a ∉ st.toVisit
  · simp [hd, hc]
  · rw [not_and_or, not_not, not_not] at hc
    rcases hc with h | h
    · exact Or.inl h
    · refine Or.inr ?_
      have ha : a ∈ st.toVisit := by simpa using h
      by_cases hc' : a ∉ st.visited ∧ a ∉ st.toVisit <;>
        simp [hd, hc', ha]

theorem processLink_file_links_origin (st : CrawlState) (a v : String)
    (hv : v ∈ (processLink st a).file_links) :
    v ∈ st.file_links ∨ v = a := by
  unfold processLink at hv
  by_cases hd : pyEndsWith a "/" = true
  · by_cases hc : a ∉ st.visited ∧ a ∉ st.toVisit <;>
      · simp only [hd, hc, if_true, if_false] at hv
        exact Or.inl hv
  · simp only [hd, if_false] at hv
    rcases Finset.mem_insert.1 hv with h | h
    · exact Or.inr h
    · exact Or.inl h

theorem foldl_processLink_visited (ls : List String) :
    ∀ st : CrawlState, (ls.foldl processLink st).visited = st.visited := by
  induction ls with
  | nil => intro st; rfl
  | cons a ls ih =>
    intro st
    rw [List.foldl_cons, ih (processLink st a), processLink_visited]

theorem foldl_processLink_trace (ls : List String) :
    ∀ st : CrawlState, (ls.foldl processLink st).trace = st.trace := by
  induction ls with
  | nil => intro st; rfl
  | cons a ls ih =>
    intro st
    rw [List.foldl_cons, ih (processLink st a), processLink_trace]

theorem foldl_processLink_toVisit_mono (ls : List String) :
    ∀ st : CrawlState, ∀ v ∈ st.toVisit, v ∈ (ls.foldl processLink st).toVisit := by
  induction ls with
  | nil => intro st v hv; exact hv
  | cons a ls ih =>
    intro st v hv
    rw [List.foldl_cons]
    exact ih (processLink st a) v (processLink_toVisit_mono st a v hv)

theorem foldl_processLink_toVisit_origin (ls : List String) :
    ∀ st : CrawlState, ∀ v ∈ (ls.foldl processLink st).toVisit,
      v ∈ st.toVisit ∨ (v ∈ ls ∧ pyEndsWith v "/" = true) := by
  induction ls with
  | nil => intro st v hv; exact Or.inl hv
  | cons a ls ih =>
    intro st v hv
    rw [List.foldl_cons] at hv
    rcases ih (processLink st a) v hv with h | ⟨hmem, hdir⟩
    · rcases processLink_toVisit_origin st a v h with h' | ⟨heq, hdir⟩
      · exact Or.inl h'
      · exact Or.inr ⟨heq ▸ List.mem_cons_self a ls, heq ▸ hdir⟩
    · exact Or.inr ⟨List.mem_cons_of_mem a hmem, hdir⟩

theorem foldl_processLink_covers (ls : List String) :
    ∀ st : CrawlState, ∀ v ∈ ls, pyEndsWith v "/" = true →
      v ∈ st.visited ∨ v ∈ (ls.foldl processLink st).toVisit := by
  induction ls with
  | nil => intro st v hv; exact absurd hv (List.not_mem_nil v)
  | cons a ls ih =>
    intro st v hv hdir
    rw [List.foldl_cons]
    rcases List.mem_cons.1 hv with heq | hmem
    · subst heq
      rcases processLink_covers st v hdir with h | h
      · exact Or.inl h
      · exact Or.inr (foldl_processLink_toVisit_mono ls (processLink st v) v h)
    · rcases ih (processLink st a) v hmem hdir with h | h
      · exact Or.inl (by rwa [processLink_visited] at h)
      · exact Or.inr h

theorem foldl_processLink_file_links_origin (ls : List String) :
    ∀ st : CrawlState, ∀ v ∈ (ls.foldl processLink st).file_links,
      v ∈ st.file_links ∨ v ∈ ls := by
  induction ls with
  | nil => intro st v hv; exact Or.inl hv
  | cons a ls ih =>
    intro st v hv
    rw [List.foldl_cons] at hv
    rcases ih (processLink st a) v hv with h | h
    · rcases processLink_file_links_origin st a v h with h' | h'
      · exact Or.inl h'
      · exact Or.inr (h' ▸ List.mem_cons_self a ls)
    · exact Or.inr (List.mem_cons_of_mem a h)

/-- Python `startswith` accepts any string extension of the prefix. -/
theorem pyStartsWith_append (s t : String) : pyStartsWith (s ++ t) s = true := by
  unfold pyStartsWith
  have hdata : (s ++ t).toList = s.toList ++ t.toList := rfl
  rw [hdata]
  simp

theorem pyStartsWith_refl (s : String) : pyStartsWith s s = true := by
  have := pyStartsWith_append s ""
  rwa [String.append_empty] at this

theorem is_same_host_and_path_refl (s : String) : is_same_host_and_path s s = true := by
  unfold is_same_host_and_path
  simp [pyStartsWith_refl]

/-- An accepted candidate agrees with the base on scheme and netloc and
extends its path. -/
theorem is_same_host_and_path_components (base cand : String)
    (h : is_same_host_and_path base cand = true) :
    (urlsplit cand).scheme = (urlsplit base).scheme ∧
    (urlsplit cand).netloc = (urlsplit base).netloc ∧
    pyStartsWith (urlsplit cand).path (urlsplit base).path = true := by
  unfold is_same_host_and_path at h
  by_cases hc : (urlsplit base).scheme ≠ (urlsplit cand).scheme ∨
      (urlsplit base).netloc ≠ (urlsplit cand).netloc
  · rw [if_pos hc] at h
    exact absurd h (by simp)
  · rw [if_neg hc] at h
    push_neg at hc
    exact ⟨hc.1.symm, hc.2.symm, h⟩

/-- Every link the extractor returns passed the boundary check — the
check sits on each individual link. -/
theorem parse_directory_listing_bounded (pages : String → List String)
    (resolve : String → String → String) (url base_url : String) :
    ∀ L ∈ parse_directory_listing pages resolve url base_url,
      is_same_host_and_path base_url L = true := by
  intro L hL
  unfold parse_directory_listing at hL
  exact (List.mem_filter.1 hL).2

theorem crawlStep_preserves_bounded (links : String → List String) (base : String)
    (hlinks : ∀ u, ∀ L ∈ links u, is_same_host_and_path base L = true)
    (s : CrawlState)
    (h1 : ∀ L ∈ s.toVisit, is_same_host_and_path base L = true)
    (h2 : ∀ L ∈ s.file_links, is_same_host_and_path base L = true) :
    (∀ L ∈ (crawlStep links s).toVisit, is_same_host_and_path base L = true) ∧
    (∀ L ∈ (crawlStep links s).file_links, is_same_host_and_path base L = true) := by
  cases hvt : s.toVisit with
  | nil => rw [crawlStep_nil links s hvt]; exact ⟨h1, h2⟩
  | cons cur rest =>
    by_cases hv : cur ∈ s.visited
    · rw [crawlStep_visited links s cur rest hvt hv]
      exact ⟨fun L hL => h1 L (by rw [hvt]; exact List.mem_cons_of_mem cur hL), h2⟩
    · rw [crawlStep_new links s cur rest hvt hv]
      constructor
      · intro L hL
        rcases foldl_processLink_toVisit_origin (links cur) _ L hL with h | ⟨hmem, _⟩
        · exact h1 L (by rw [hvt]; exact List.mem_cons_of_mem cur h)
        · exact hlinks cur L hmem
      · intro L hL
        rcases foldl_processLink_file_links_origin (links cur) _ L hL with h | h
        · exact h2 L h
        · exact hlinks cur L h

theorem crawlRun_preserves_bounded (links : String → List String) (base : String)
    (hlinks : ∀ u, ∀ L ∈ links u, is_same_host_and_path base L = true) :
    ∀ n (s : CrawlState),
      (∀ L ∈ s.toVisit, is_same_host_and_path base L = true) →
      (∀ L ∈ s.file_links, is_same_host_and_path base L = true) →
      (∀ L ∈ (crawlRun links n s).toVisit, is_same_host_and_path base L = true) ∧
      (∀ L ∈ (crawlRun links n s).file_links, is_same_host_and_path base L = true) := by
  intro n
  induction n with
  | zero => intro s h1 h2; exact ⟨h1, h2⟩
  | succ n ih =>
    intro s h1 h2
    cases hvt : s.toVisit with
    | nil => rw [crawlRun_nil links s hvt]; exact ⟨h1, h2⟩
    | cons cur rest =>
      rw [crawlRun_succ links s cur rest hvt n]
      obtain ⟨h1', h2'⟩ := crawlStep_preserves_bounded links base hlinks s h1 h2
      exact ih (crawlStep links s) h1' h2'

/-- C2: for every page crawled under the root and every link the
extractor returns — hence every link ever present in `file_links` or the
pending queue — the link's scheme and host equal the root's and its URL
path starts with the root's path; the check is applied to each link
individually by `parse_directory_listing`, so a link failing it is never
added. -/
theorem c2_boundary_invariant (pages : String → List String)
    (resolve : String → String → String) (start_url : String) (fuel : Nat) :
    (∀ url L, L ∈ parse_directory_listing pages resolve url start_url →
      (urlsplit L).scheme = (urlsplit start_url).scheme ∧
      (urlsplit L).netloc = (urlsplit start_url).netloc ∧
      pyStartsWith (urlsplit L).path (urlsplit start_url).path = true) ∧
    (∀ L, L ∈ (crawlRun (fun cur => parse_directory_listing pages resolve cur start_url)
        fuel (crawlInit start_url)).file_links →
      (urlsplit L).scheme = (urlsplit start_url).scheme ∧
      (urlsplit L).netloc = (urlsplit start_url).netloc ∧
      pyStartsWith (urlsplit L).path (urlsplit start_url).path = true) ∧
    (∀ L, L ∈ (crawlRun (fun cur => parse_directory_listing pages resolve cur start_url)
        fuel (crawlInit start_url)).toVisit →
      (urlsplit L).scheme = (urlsplit start_url).scheme ∧
      (urlsplit L).netloc = (urlsplit start_url).netloc ∧
      pyStartsWith (urlsplit L).path (urlsplit start_url).path = true) := by
  have hrun := crawlRun_preserves_bounded
    (fun cur => parse_directory_listing pages resolve cur start_url) start_url
    (fun u => parse_directory_listing_bounded pages resolve u start_url)
    fuel (crawlInit start_url)
    (by
      intro L hL
      have : L = start_url := List.mem_singleton.1 hL
      rw [this]
      exact is_same_host_and_path_refl start_url)
    (by intro L hL; exact absurd hL (Finset.not_mem_empty L))
  refine ⟨?_, ?_, ?_⟩
  · intro url L hL
    exact is_same_host_and_path_components start_url L
      (parse_directory_listing_bounded pages resolve url start_url L hL)
  · intro L hL
    exact is_same_host_and_path_components start_url L (hrun.2 L hL)
  · intro L hL
    exact is_same_host_and_path_components start_url L (hrun.1 L hL)

/-- C2 witness: root `http://x/a/`, a page listing the anchor `b.txt`,
resolved to `http://x/a/b.txt`: the extractor returns it and it is
in-boundary. -/
theorem c2_witness :
    "http://x/a/b.txt" ∈ parse_directory_listing (fun _ => ["b.txt"])
      (fun u h => u ++ h) "http://x/a/" "http://x/a/" ∧
    (urlsplit "http://x/a/b.txt").scheme = (urlsplit "http://x/a/").scheme ∧
    (urlsplit "http://x/a/b.txt").netloc = (urlsplit "http://x/a/").netloc ∧
    pyStartsWith (urlsplit "http://x/a/b.txt").path (urlsplit "http://x/a/").path = true :=
  ⟨by decide,
   (c2_boundary_invariant (fun _ => ["b.txt"]) (fun u h => u ++ h) "http://x/a/" 0).1
     "http://x/a/" "http://x/a/b.txt" (by decide)⟩

/-! C5 machinery: the crawl terminates on a finite directory graph and
visits each reachable directory URL exactly once. -/

/-- The loop invariant of `collect_all_links`: `visited` is exactly the
set of crawled pages (`trace`), no page is crawled twice, everything
crawled or pending is reachable from the start over directory links,
every directory link out of a crawled page is crawled or pending, and
the start itself is crawled or pending. -/
def crawlInv (links : String → List String) (start : String) (s : CrawlState) : Prop :=
  s.visited = s.trace.toFinset ∧
  s.trace.Nodup ∧
  (∀ v ∈ s.trace, Relation.ReflTransGen (dirEdge links) start v) ∧
  (∀ v ∈ s.toVisit, Relation.ReflTransGen (dirEdge links) start v) ∧
  (∀ u ∈ s.visited, ∀ v, dirEdge links u v → v ∈ s.visited ∨ v ∈ s.toVisit) ∧
  (start ∈ s.visited ∨ start ∈ s.toVisit)

theorem crawlInv_init (links : String → List String) (start : String) :
    crawlInv links start (crawlInit start) := by
  refine ⟨rfl, List.nodup_nil, ?_, ?_, ?_, ?_⟩
  · intro v hv
    exact absurd hv (List.not_mem_nil v)
  · intro v hv
    exact List.mem_singleton.1 hv ▸ Relation.ReflTransGen.refl
  · intro u hu
    exact absurd hu (Finset.not_mem_empty u)
  · exact Or.inr (List.mem_singleton_self start)

theorem crawlStep_preserves_inv (links : String → List String) (start : String)
    (s : CrawlState) (hinv : crawlInv links start s) :
    crawlInv links start (crawlStep links s) := by
  obtain ⟨inv1, inv2, inv3, inv4, inv5, inv6⟩ := hinv
  cases hvt : s.toVisit with
  | nil => rw [crawlStep_nil links s hvt]; exact ⟨inv1, inv2, inv3, inv4, inv5, inv6⟩
  | cons cur rest =>
    by_cases hv : cur ∈ s.visited
    · rw [crawlStep_visited links s cur rest hvt hv]
      refine ⟨inv1, inv2, inv3, ?_, ?_, ?_⟩
      · intro v hv'
        exact inv4 v (by rw [hvt]; exact List.mem_cons_of_mem cur hv')
      · intro u hu v hedge
        rcases inv5 u hu v hedge with h | h
        · exact Or.inl h
        · rw [hvt] at h
          rcases List.mem_cons.1 h with heq | hr
          · exact Or.inl (heq ▸ hv)
          · exact Or.inr hr
      · rcases inv6 with h | h
        · exact Or.inl h
        · rw [hvt] at h
          rcases List.mem_cons.1 h with heq | hr
          · exact Or.inl (heq ▸ hv)
          · exact Or.inr hr
    · rw [crawlStep_new links s cur rest hvt hv]
      have hcurReach : Relation.ReflTransGen (dirEdge links) start cur :=
        inv4 cur (by rw [hvt]; exact List.mem_cons_self cur rest)
      have hcurNotTrace : cur ∉ s.trace := by
        intro hmem
        exact hv (by rw [inv1]; exact List.mem_toFinset.2 hmem)
      have hVis : ((links cur).foldl processLink
          { toVisit := rest, visited := insert cur s.visited,
            file_links := s.file_links, trace := s.trace ++ [cur] }).visited =
          insert cur s.visited := foldl_processLink_visited (links cur) _
      have hTr : ((links cur).foldl processLink
          { toVisit := rest, visited := insert cur s.visited,
            file_links := s.file_links, trace := s.trace ++ [cur] }).trace =
          s.trace ++ [cur] := foldl_processLink_trace (links cur) _
      refine ⟨?_, ?_, ?_, ?_, ?_, ?_⟩
      · rw [hVis, hTr, inv1]
        ext x
        simp [or_comm]
      · rw [hTr]
        simp [List.nodup_append, inv2, hcurNotTrace]
      · rw [hTr]
        intro v hv'
        rcases List.mem_append.1 hv' with h | h
        · exact inv3 v h
        · rw [List.mem_singleton.1 h]
          exact hcurReach
      · intro v hv'
        rcases foldl_processLink_toVisit_origin (links cur) _ v hv' with h | ⟨hmem, hdir⟩
        · exact inv4 v (by rw [hvt]; exact List.mem_cons_of_mem cur h)
        · exact Relation.ReflTransGen.tail hcurReach ⟨hmem, hdir⟩
      · rw [hVis]
        intro u hu v hedge
        rcases Finset.mem_insert.1 hu with heq | hold
        · obtain ⟨hmem, hdir⟩ := heq ▸ hedge
          rcases foldl_processLink_covers (links cur)
              { toVisit := rest, visited := insert cur s.visited,
                file_links := s.file_links, trace := s.trace ++ [cur] } v hmem hdir with h | h
          · exact Or.inl h
          · exact Or.inr h
        · rcases inv5 u hold v hedge with h | h
          · exact Or.inl (Finset.mem_insert_of_mem h)
          · rw [hvt] at h
            rcases List.mem_cons.1 h with heq | hr
            · exact Or.inl (heq ▸ Finset.mem_insert_self cur s.visited)
            · exact Or.inr (foldl_processLink_toVisit_mono (links cur) _ v hr)
      · rw [hVis]
        rcases inv6 with h | h
        · exact Or.inl (Finset.mem_insert_of_mem h)
        · rw [hvt] at h
          rcases List.mem_cons.1 h with heq | hr
          · exact Or.inl (heq ▸ Finset.mem_insert_self cur s.visited)
          · exact Or.inr (foldl_processLink_toVisit_mono (links cur) _ start hr)

theorem crawlRun_preserves_inv (links : String → List String) (start : String) :
    ∀ n (s : CrawlState), crawlInv links start s →
      crawlInv links start (crawlRun links n s) := by
  intro n
  induction n with
  | zero => intro s h; exact h
  | succ n ih =>
    intro s h
    cases hvt : s.toVisit with
    | nil => rw [crawlRun_nil links s hvt]; exact h
    | cons cur rest =>
      rw [crawlRun_succ links s cur rest hvt n]
      exact ih (crawlStep links s) (crawlStep_preserves_inv links start s h)

/-- With the queue empty, the invariant pins the trace down: it is
duplicate-free and holds exactly the URLs reachable over directory
links. -/
theorem crawlInv_final (links : String → List String) (start : String)
    (s : CrawlState) (hinv : crawlInv links start s) (hnil : s.toVisit = []) :
    s.trace.Nodup ∧
    (∀ v, v ∈ s.trace ↔ Relation.ReflTransGen (dirEdge links) start v) := by
  obtain ⟨inv1, inv2, inv3, inv4, inv5, inv6⟩ := hinv
  have hstart : start ∈ s.visited := by
    rcases inv6 with h | h
    · exact h
    · rw [hnil] at h
      exact absurd h (List.not_mem_nil start)
  refine ⟨inv2, fun v => ⟨inv3 v, ?_⟩⟩
  intro hreach
  induction hreach with
  | refl =>
    rw [inv1] at hstart
    exact List.mem_toFinset.1 hstart
  | @tail b c hab hbc ih =>
    have hb : b ∈ s.visited := by
      rw [inv1]
      exact List.mem_toFinset.2 ih
    rcases inv5 _ hb _ hbc with h | h
    · rw [inv1] at h
      exact List.mem_toFinset.1 h
    · rw [hnil] at h
      exact absurd h (List.not_mem_nil _)

/-- On a finite directory graph the crawl empties its queue: induction
on how many of `U`'s pages are still unvisited, with an inner induction
on the queue length. -/
theorem crawl_terminates_aux (links : String → List String) (U : Finset String)
    (hU : ∀ u ∈ U, ∀ v ∈ links u, pyEndsWith v "/" = true → v ∈ U) :
    ∀ k l (s : CrawlState), s.visited ⊆ U → (∀ v ∈ s.toVisit, v ∈ U) →
      U.card - s.visited.card ≤ k → s.toVisit.length ≤ l →
      ∃ n, (crawlRun links n s).toVisit = [] := by
  intro k
  induction k with
  | zero =>
    intro l
    induction l with
    | zero =>
      intro s _ _ _ hlen
      exact ⟨0, List.length_eq_zero.1 (Nat.le_zero.1 hlen)⟩
    | succ l ihl =>
      intro s hvisU htvU hk hlen
      cases hvt : s.toVisit with
      | nil => exact ⟨0, hvt⟩
      | cons cur rest =>
        have hvisEq : s.visited = U := Finset.eq_of_subset_of_card_le hvisU (by omega)
        have hv : cur ∈ s.visited := by
          rw [hvisEq]
          exact htvU cur (by rw [hvt]; exact List.mem_cons_self cur rest)
        obtain ⟨n, hn⟩ := ihl { s with toVisit := rest } hvisU
          (fun v hv' => htvU v (by rw [hvt]; exact List.mem_cons_of_mem cur hv'))
          hk
          (by
            rw [hvt] at hlen
            simp at hlen
            show rest.length ≤ l
            omega)
        refine ⟨n + 1, ?_⟩
        rw [crawlRun_succ links s cur rest hvt n, crawlStep_visited links s cur rest hvt hv]
        exact hn
  | succ k ihk =>
    intro l
    induction l with
    | zero =>
      intro s _ _ _ hlen
      exact ⟨0, List.length_eq_zero.1 (Nat.le_zero.1 hlen)⟩
    | succ l ihl =>
      intro s hvisU htvU hk hlen
      cases hvt : s.toVisit with
      | nil => exact ⟨0, hvt⟩
      | cons cur rest =>
        have hcurU : cur ∈ U := htvU cur (by rw [hvt]; exact List.mem_cons_self cur rest)
        by_cases hv : cur ∈ s.visited
        · obtain ⟨n, hn⟩ := ihl { s with toVisit := rest } hvisU
            (fun v hv' => htvU v (by rw [hvt]; exact List.mem_cons_of_mem cur hv'))
            hk
            (by
              rw [hvt] at hlen
              simp at hlen
              show rest.length ≤ l
              omega)
          refine ⟨n + 1, ?_⟩
          rw [crawlRun_succ links s cur rest hvt n, crawlStep_visited links s cur rest hvt hv]
          exact hn
        · have hstep : crawlStep links s = (links cur).foldl processLink
              { toVisit := rest, visited := insert cur s.visited,
                file_links := s.file_links, trace := s.trace ++ [cur] } :=
            crawlStep_new links s cur rest hvt hv
          have hVis : (crawlStep links s).visited = insert cur s.visited := by
            rw [hstep]
            exact foldl_processLink_visited (links cur) _
          have hvis' : (crawlStep links s).visited ⊆ U := by
            rw [hVis]
            exact Finset.insert_subset hcurU hvisU
          have htv' : ∀ v ∈ (crawlStep links s).toVisit, v ∈ U := by
            intro v hv'
            rw [hstep] at hv'
            rcases foldl_processLink_toVisit_origin (links cur) _ v hv' with h | ⟨hmem, hdir⟩
            · exact htvU v (by rw [hvt]; exact List.mem_cons_of_mem cur h)
            · exact hU cur hcurU v hmem hdir
          have hcard' : U.card - (crawlStep links s).visited.card ≤ k := by
            rw [hVis, Finset.card_insert_of_not_mem hv]
            have hle : s.visited.card ≤ U.card := Finset.card_le_card hvisU
            omega
          obtain ⟨n, hn⟩ := ihk (crawlStep links s).toVisit.length (crawlStep links s)
            hvis' htv' hcard' le_rfl
          refine ⟨n + 1, ?_⟩
          rw [crawlRun_succ links s cur rest hvt n]
          exact hn

/-- C5: for every directory graph given by a fixed link-extraction
function whose directory links stay inside a finite universe `U`
containing the start URL, the crawl loop of `collect_all_links`
terminates — some number of iterations empties the queue and further
iterations change nothing —, fetches each unique directory URL at most
once (the visit trace is duplicate-free: the visited set prevents
revisits even on cyclic or self-referential listings), and performs
exactly one visit per unique reachable directory URL: the trace is
exactly the set of URLs reachable from the start over directory links —
in particular so on a finite acyclic graph. -/
theorem c5_crawl_terminates_visits_once (links : String → List String)
    (start_url : String) (U : Finset String) (hstart : start_url ∈ U)
    (hU : ∀ u ∈ U, ∀ v ∈ links u, pyEndsWith v "/" = true → v ∈ U) :
    ∃ n, (crawlRun links n (crawlInit start_url)).toVisit = [] ∧
      (∀ m, crawlRun links m (crawlRun links n (crawlInit start_url)) =
        crawlRun links n (crawlInit start_url)) ∧
      (crawlRun links n (crawlInit start_url)).trace.Nodup ∧
      (∀ v, v ∈ (crawlRun links n (crawlInit start_url)).trace ↔
        Relation.ReflTransGen (dirEdge links) start_url v) := by
  obtain ⟨n, hn⟩ := crawl_terminates_aux links U hU U.card 1 (crawlInit start_url)
    (by simp [crawlInit])
    (by
      intro v hv
      rw [List.mem_singleton.1 hv]
      exact hstart)
    (by simp [crawlInit])
    (by simp [crawlInit])
  have hinv := crawlRun_preserves_inv links start_url n (crawlInit start_url)
    (crawlInv_init links start_url)
  obtain ⟨hnodup, hiff⟩ := crawlInv_final links start_url _ hinv hn
  exact ⟨n, hn, fun m => crawlRun_nil links _ hn m, hnodup, hiff⟩

/-- C5 witness: the two-directory listing graph
`/a/ ↦ [/a/sub/, /a/b.txt]`, `/a/sub/ ↦ [/a/c.txt]` inside the universe
`{/a/, /a/sub/}`: the crawl terminates with a duplicate-free trace
holding exactly the reachable directory URLs. -/
theorem c5_witness :
    ∃ n, (crawlRun
        (fun u => if u = "http://x/a/" then ["http://x/a/sub/", "http://x/a/b.txt"]
          else if u = "http://x/a/sub/" then ["http://x/a/c.txt"] else [])
        n (crawlInit "http://x/a/")).toVisit = [] ∧
      (∀ m, crawlRun
          (fun u => if u = "http://x/a/" then ["http://x/a/sub/", "http://x/a/b.txt"]
            else if u = "http://x/a/sub/" then ["http://x/a/c.txt"] else [])
          m (crawlRun
            (fun u => if u = "http://x/a/" then ["http://x/a/sub/", "http://x/a/b.txt"]
              else if u = "http://x/a/sub/" then ["http://x/a/c.txt"] else [])
            n (crawlInit "http://x/a/")) =
        crawlRun
          (fun u => if u = "http://x/a/" then ["http://x/a/sub/", "http://x/a/b.txt"]
            else if u = "http://x/a/sub/" then ["http://x/a/c.txt"] else [])
          n (crawlInit "http://x/a/")) ∧
      (crawlRun
        (fun u => if u = "http://x/a/" then ["http://x/a/sub/", "http://x/a/b.txt"]
          else if u = "http://x/a/sub/" then ["http://x/a/c.txt"] else [])
        n (crawlInit "http://x/a/")).trace.Nodup ∧
      (∀ v, v ∈ (crawlRun
          (fun u => if u = "http://x/a/" then ["http://x/a/sub/", "http://x/a/b.txt"]
            else if u = "http://x/a/sub/" then ["http://x/a/c.txt"] else [])
          n (crawlInit "http://x/a/")).trace ↔
        Relation.ReflTransGen
          (dirEdge (fun u => if u = "http://x/a/" then ["http://x/a/sub/", "http://x/a/b.txt"]
            else if u = "http://x/a/sub/" then ["http://x/a/c.txt"] else []))
          "http://x/a/" v) :=
  c5_crawl_terminates_visits_once
    (fun u => if u = "http://x/a/" then ["http://x/a/sub/", "http://x/a/b.txt"]
      else if u = "http://x/a/sub/" then ["http://x/a/c.txt"] else [])
    "http://x/a/" {"http://x/a/", "http://x/a/sub/"} (by decide) (by decide)

theorem Fs.set_self (fs : Fs) (p : String) (v : Option (List Nat)) :
    (fs.set p v) p = v := by
  simp [Fs.set]

theorem Fs.set_other (fs : Fs) (p q : String) (v : Option (List Nat))
    (h : q ≠ p) : (fs.set p v) q = fs q := by
  simp [Fs.set, h]

/-- A string is never equal to itself followed by `".part"`. -/
theorem ne_append_part (s : String) : s ≠ s ++ ".part" := by
  intro h
  have hlen : s.length = (s ++ ".part").length := by rw [← h]
  rw [String.length_append] at hlen
  have h5 : (".part" : String).length = 5 := rfl
  omega

/-! Branch equations for `transferLoop`. -/

theorem transferLoop_zero (gets : Nat → GetAttempt) (local_path : String)
    (i : Nat) (fs : Fs) :
    transferLoop gets local_path i 0 fs = (.failed, fs, [Event.pbarUpdate]) := rfl

theorem transferLoop_exc (gets : Nat → GetAttempt) (local_path : String)
    (i n : Nat) (fs : Fs) (hg : gets i = GetAttempt.exc) :
    transferLoop gets local_path i (n + 1) fs =
      ((transferLoop gets local_path (i + 1) n fs).1,
       (transferLoop gets local_path (i + 1) n fs).2.1,
       Event.getAttempt :: Event.sleepEvent ::
         (transferLoop gets local_path (i + 1) n fs).2.2) := by
  conv_lhs => unfold transferLoop
  rw [hg]

theorem transferLoop_success (gets : Nat → GetAttempt) (local_path : String)
    (i n : Nat) (fs : Fs) (status : Nat) (written : List (List Nat))
    (hg : gets i = GetAttempt.resp status written true)
    (hs : status = 200 ∨ status = 206) :
    transferLoop gets local_path i (n + 1) fs =
      (.downloaded,
       ((fs.set (local_path ++ ".part") (some written.flatten)).set local_path
           (some written.flatten)).set (local_path ++ ".part") none,
       [Event.getAttempt, Event.pbarUpdate]) := by
  conv_lhs => unfold transferLoop
  rw [hg]
  simp [hs, SLEEP_BETWEEN_REQUESTS, Fs.set_self]

theorem transferLoop_streamFail (gets : Nat → GetAttempt) (local_path : String)
    (i n : Nat) (fs : Fs) (status : Nat) (written : List (List Nat))
    (hg : gets i = GetAttempt.resp status written false)
    (hs : status = 200 ∨ status = 206) :
    transferLoop gets local_path i (n + 1) fs =
      ((transferLoop gets local_path (i + 1) n
          (fs.set (local_path ++ ".part") (some written.flatten))).1,
       (transferLoop gets local_path (i + 1) n
          (fs.set (local_path ++ ".part") (some written.flatten))).2.1,
       Event.getAttempt :: Event.sleepEvent ::
         (transferLoop gets local_path (i + 1) n
            (fs.set (local_path ++ ".part") (some written.flatten))).2.2) := by
  conv_lhs => unfold transferLoop
  rw [hg]
  simp [hs]

theorem transferLoop_badStatus (gets : Nat → GetAttempt) (local_path : String)
    (i n : Nat) (fs : Fs) (status : Nat) (written : List (List Nat)) (ok : Bool)
    (hg : gets i = GetAttempt.resp status written ok)
    (hs : ¬(status = 200 ∨ status = 206)) :
    transferLoop gets local_path i (n + 1) fs =
      ((transferLoop gets local_path (i + 1) n fs).1,
       (transferLoop gets local_path (i + 1) n fs).2.1,
       Event.getAttempt :: (transferLoop gets local_path (i + 1) n fs).2.2) := by
  conv_lhs => unfold transferLoop
  rw [hg]
  simp [hs]

/-- The HEAD retry loop performs no GET and no progress update. -/
theorem tryHeadLoop_events (heads : Nat → HeadAttempt) :
    ∀ n i, (tryHeadLoop heads i n).2.count Event.getAttempt = 0 ∧
      (tryHeadLoop heads i n).2.count Event.pbarUpdate = 0 := by
  intro n
  induction n with
  | zero => intro i; exact ⟨rfl, rfl⟩
  | succ n ih =>
    intro i
    unfold tryHeadLoop
    cases heads i with
    | resp r => exact ⟨rfl, rfl⟩
    | exc => simpa [List.count_cons] using ih (i + 1)

/-- The transfer loop touches no path other than `local_path` and its
temporary sibling `local_path ++ ".part"`. -/
theorem transferLoop_other_paths (gets : Nat → GetAttempt) (local_path p : String)
    (hp1 : p ≠ local_path) (hp2 : p ≠ local_path ++ ".part") :
    ∀ n i fs, (transferLoop gets local_path i n fs).2.1 p = fs p := by
  intro n
  induction n with
  | zero => intro i fs; rfl
  | succ n ih =>
    intro i fs
    cases hg : gets i with
    | exc =>
      rw [transferLoop_exc gets local_path i n fs hg]
      exact ih (i + 1) fs
    | resp status written ok =>
      by_cases hs : status = 200 ∨ status = 206
      · cases ok with
        | true =>
          rw [transferLoop_success gets local_path i n fs status written hg hs]
          simp [Fs.set, hp1, hp2]
        | false =>
          rw [transferLoop_streamFail gets local_path i n fs status written hg hs]
          rw [ih (i + 1) _]
          exact Fs.set_other _ _ _ _ hp2
      · rw [transferLoop_badStatus gets local_path i n fs status written ok hg hs]
        exact ih (i + 1) fs

/-- The transfer loop's outcome is `downloaded` or `failed`. -/
theorem transferLoop_result_cases (gets : Nat → GetAttempt) (local_path : String) :
    ∀ n i fs, (transferLoop gets local_path i n fs).1 = Outcome.downloaded ∨
      (transferLoop gets local_path i n fs).1 = Outcome.failed := by
  intro n
  induction n with
  | zero => intro i fs; exact Or.inr rfl
  | succ n ih =>
    intro i fs
    cases hg : gets i with
    | exc =>
      rw [transferLoop_exc gets local_path i n fs hg]
      exact ih (i + 1) fs
    | resp status written ok =>
      by_cases hs : status = 200 ∨ status = 206
      · cases ok with
        | true =>
          rw [transferLoop_success gets local_path i n fs status written hg hs]
          exact Or.inl rfl
        | false =>
          rw [transferLoop_streamFail gets local_path i n fs status written hg hs]
          exact ih (i + 1) _
      · rw [transferLoop_badStatus gets local_path i n fs status written ok hg hs]
        exact ih (i + 1) fs

/-- A failed transfer leaves `local_path` unchanged. -/
theorem transferLoop_failed_local (gets : Nat → GetAttempt) (local_path : String) :
    ∀ n i fs, (transferLoop gets local_path i n fs).1 = Outcome.failed →
      (transferLoop gets local_path i n fs).2.1 local_path = fs local_path := by
  intro n
  induction n with
  | zero => intro i fs _; rfl
  | succ n ih =>
    intro i fs hfail
    cases hg : gets i with
    | exc =>
      rw [transferLoop_exc gets local_path i n fs hg] at hfail ⊢
      exact ih (i + 1) fs hfail
    | resp status written ok =>
      by_cases hs : status = 200 ∨ status = 206
      · cases ok with
        | true =>
          rw [transferLoop_success gets local_path i n fs status written hg hs] at hfail
          simp at hfail
        | false =>
          rw [transferLoop_streamFail gets local_path i n fs status written hg hs] at hfail ⊢
          rw [ih (i + 1) _ hfail]
          exact Fs.set_other _ _ _ _ (ne_append_part local_path)
      · rw [transferLoop_badStatus gets local_path i n fs status written ok hg hs] at hfail ⊢
        exact ih (i + 1) fs hfail

/-- A successful transfer ends with `local_path` holding the complete
body of some 200/206 attempt whose streaming finished. -/
theorem transferLoop_downloaded_local (gets : Nat → GetAttempt) (local_path : String) :
    ∀ n i fs, (transferLoop gets local_path i n fs).1 = Outcome.downloaded →
      ∃ j status written, j < n ∧ gets (i + j) = GetAttempt.resp status written true ∧
        (status = 200 ∨ status = 206) ∧
        (transferLoop gets local_path i n fs).2.1 local_path = some written.flatten := by
  intro n
  induction n with
  | zero => intro i fs h; simp [transferLoop_zero] at h
  | succ n ih =>
    intro i fs hdl
    cases hg : gets i with
    | exc =>
      rw [transferLoop_exc gets local_path i n fs hg] at hdl ⊢
      obtain ⟨j, status, written, hj, hga, hst, hfs⟩ := ih (i + 1) fs hdl
      exact ⟨j + 1, status, written, by omega, by
        rw [show i + (j + 1) = i + 1 + j by omega]; exact hga, hst, hfs⟩
    | resp status written ok =>
      by_cases hs : status = 200 ∨ status = 206
      · cases ok with
        | true =>
          rw [transferLoop_success gets local_path i n fs status written hg hs]
          refine ⟨0, status, written, by omega, by simpa using hg, hs, ?_⟩
          dsimp only
          rw [Fs.set_other _ _ _ _ (ne_append_part local_path), Fs.set_self]
        | false =>
          rw [transferLoop_streamFail gets local_path i n fs status written hg hs] at hdl ⊢
          obtain ⟨j, status', written', hj, hga, hst, hfs⟩ := ih (i + 1) _ hdl
          exact ⟨j + 1, status', written', by omega, by
            rw [show i + (j + 1) = i + 1 + j by omega]; exact hga, hst, hfs⟩
      · rw [transferLoop_badStatus gets local_path i n fs status written ok hg hs] at hdl ⊢
        obtain ⟨j, status', written', hj, hga, hst, hfs⟩ := ih (i + 1) fs hdl
        exact ⟨j + 1, status', written', by omega, by
          rw [show i + (j + 1) = i + 1 + j by omega]; exact hga, hst, hfs⟩

/-- Every run of the transfer loop updates the progress bar exactly once. -/
theorem transferLoop_pbar_once (gets : Nat → GetAttempt) (local_path : String) :
    ∀ n i fs, (transferLoop gets local_path i n fs).2.2.count Event.pbarUpdate = 1 := by
  intro n
  induction n with
  | zero => intro i fs; rfl
  | succ n ih =>
    intro i fs
    cases hg : gets i with
    | exc =>
      rw [transferLoop_exc gets local_path i n fs hg]
      simpa [List.count_cons] using ih (i + 1) fs
    | resp status written ok =>
      by_cases hs : status = 200 ∨ status = 206
      · cases ok with
        | true =>
          rw [transferLoop_success gets local_path i n fs status written hg hs]
          rfl
        | false =>
          rw [transferLoop_streamFail gets local_path i n fs status written hg hs]
          simpa [List.count_cons] using ih (i + 1) _
      · rw [transferLoop_badStatus gets local_path i n fs status written ok hg hs]
        simpa [List.count_cons] using ih (i + 1) fs

/-- A GET attempt the transfer loop treats as success: a 200/206
response whose streaming, write and replace completed (`ok = true`). -/
def isSuccessAttempt : GetAttempt → Bool
  | GetAttempt.resp status _ true => decide (status = 200 ∨ status = 206)
  | _ => false

/-- A GET attempt after which the loop executes `time.sleep(1)`: a
transport exception, or an exception mid-stream/write after a 200/206
status. A non-2xx status retries immediately with no delay. -/
def hasDelayAfter : GetAttempt → Bool
  | GetAttempt.exc => true
  | GetAttempt.resp status _ ok => decide (status = 200 ∨ status = 206) && !ok

theorem isSuccessAttempt_iff (a : GetAttempt) :
    isSuccessAttempt a = true ↔
      ∃ status written, a = GetAttempt.resp status written true ∧
        (status = 200 ∨ status = 206) := by
  cases a with
  | exc => simp [isSuccessAttempt]
  | resp s w ok => cases ok <;> simp [isSuccessAttempt]

theorem range_map_shift {α : Type} (f : Nat → α) (n i : Nat) :
    (List.range (n + 1)).map (fun j => f (i + j)) =
      f i :: (List.range n).map (fun j => f (i + 1 + j)) := by
  rw [List.range_succ_eq_map]
  simp only [List.map_cons, List.map_map, Nat.add_zero]
  congr 1
  refine List.map_congr_left ?_
  intro a _
  simp only [Function.comp]
  congr 1
  omega

/-- The transfer loop makes at most `n` GET attempts. -/
theorem transferLoop_get_bound (gets : Nat → GetAttempt) (local_path : String) :
    ∀ n i fs, (transferLoop gets local_path i n fs).2.2.count Event.getAttempt ≤ n := by
  intro n
  induction n with
  | zero => intro i fs; simp [transferLoop_zero]
  | succ n ih =>
    intro i fs
    cases hg : gets i with
    | exc =>
      rw [transferLoop_exc gets local_path i n fs hg]
      have := ih (i + 1) fs
      simp [List.count_cons]
      omega
    | resp status written ok =>
      by_cases hs : status = 200 ∨ status = 206
      · cases ok with
        | true =>
          rw [transferLoop_success gets local_path i n fs status written hg hs]
          simp [List.count_cons]
        | false =>
          rw [transferLoop_streamFail gets local_path i n fs status written hg hs]
          have := ih (i + 1) (fs.set (local_path ++ ".part") (some written.flatten))
          simp [List.count_cons]
          omega
      · rw [transferLoop_badStatus gets local_path i n fs status written ok hg hs]
        have := ih (i + 1) fs
        simp [List.count_cons]
        omega

/-- When no attempt in the window succeeds, the loop fails, makes one
GET per attempt, and sleeps exactly after the attempts that raised. -/
theorem transferLoop_noSuccess (gets : Nat → GetAttempt) (local_path : String) :
    ∀ n i fs, (∀ j, j < n → isSuccessAttempt (gets (i + j)) = false) →
      (transferLoop gets local_path i n fs).1 = Outcome.failed ∧
      (transferLoop gets local_path i n fs).2.2.count Event.getAttempt = n ∧
      (transferLoop gets local_path i n fs).2.2.count Event.sleepEvent =
        ((List.range n).map (fun j => gets (i + j))).countP (fun a => hasDelayAfter a) := by
  intro n
  induction n with
  | zero => intro i fs _; exact ⟨rfl, rfl, rfl⟩
  | succ n ih =>
    intro i fs h
    have hshift : ∀ j, j < n → isSuccessAttempt (gets (i + 1 + j)) = false := by
      intro j hj
      have := h (j + 1) (by omega)
      rwa [show i + (j + 1) = i + 1 + j by omega] at this
    rw [range_map_shift]
    cases hg : gets i with
    | exc =>
      obtain ⟨h1, h2, h3⟩ := ih (i + 1) fs hshift
      rw [transferLoop_exc gets local_path i n fs hg]
      refine ⟨h1, ?_, ?_⟩
      · simp [List.count_cons, h2]
      · simp [List.countP_cons, List.count_cons, h3, hg, hasDelayAfter]
    | resp status written ok =>
      by_cases hs : status = 200 ∨ status = 206
      · cases ok with
        | true =>
          have := h 0 (by omega)
          rw [Nat.add_zero, hg] at this
          simp [isSuccessAttempt, hs] at this
        | false =>
          obtain ⟨h1, h2, h3⟩ :=
            ih (i + 1) (fs.set (local_path ++ ".part") (some written.flatten)) hshift
          rw [transferLoop_streamFail gets local_path i n fs status written hg hs]
          refine ⟨h1, ?_, ?_⟩
          · simp [List.count_cons, h2]
          · simp [List.countP_cons, List.count_cons, h3, hg, hasDelayAfter, hs]
      · obtain ⟨h1, h2, h3⟩ := ih (i + 1) fs hshift
        rw [transferLoop_badStatus gets local_path i n fs status written ok hg hs]
        refine ⟨h1, ?_, ?_⟩
        · simp [List.count_cons, h2]
        · simp [List.countP_cons, List.count_cons, h3, hg, hasDelayAfter, hs]

/-- When the first success in the window is the `j`-th attempt, the loop
downloads, makes `j + 1` GET attempts, and sleeps exactly after those of
the first `j` attempts that raised. -/
theorem transferLoop_firstSuccess (gets : Nat → GetAttempt) (local_path : String) :
    ∀ n i fs j, j < n → isSuccessAttempt (gets (i + j)) = true →
      (∀ k, k < j → isSuccessAttempt (gets (i + k)) = false) →
      (transferLoop gets local_path i n fs).1 = Outcome.downloaded ∧
      (transferLoop gets local_path i n fs).2.2.count Event.getAttempt = j + 1 ∧
      (transferLoop gets local_path i n fs).2.2.count Event.sleepEvent =
        ((List.range j).map (fun k => gets (i + k))).countP (fun a => hasDelayAfter a) := by
  intro n
  induction n with
  | zero => intro i fs j hj; omega
  | succ n ih =>
    intro i fs j hj hsucc hbefore
    cases j with
    | zero =>
      rw [Nat.add_zero] at hsucc
      obtain ⟨status, written, hg, hs⟩ := (isSuccessAttempt_iff _).1 hsucc
      rw [transferLoop_success gets local_path i n fs status written hg hs]
      exact ⟨rfl, rfl, rfl⟩
    | succ j' =>
      have hfail0 : isSuccessAttempt (gets i) = false := by
        have := hbefore 0 (by omega)
        rwa [Nat.add_zero] at this
      have hsucc' : isSuccessAttempt (gets (i + 1 + j')) = true := by
        rwa [show i + (j' + 1) = i + 1 + j' by omega] at hsucc
      have hbefore' : ∀ k, k < j' → isSuccessAttempt (gets (i + 1 + k)) = false := by
        intro k hk
        have := hbefore (k + 1) (by omega)
        rwa [show i + (k + 1) = i + 1 + k by omega] at this
      rw [range_map_shift]
      cases hg : gets i with
      | exc =>
        obtain ⟨h1, h2, h3⟩ := ih (i + 1) fs j' (by omega) hsucc' hbefore'
        rw [transferLoop_exc gets local_path i n fs hg]
        refine ⟨h1, ?_, ?_⟩
        · simp [List.count_cons, h2]
        · simp [List.countP_cons, List.count_cons, h3, hg, hasDelayAfter]
      | resp status written ok =>
        by_cases hs : status = 200 ∨ status = 206
        · cases ok with
          | true =>
            rw [hg] at hfail0
            simp [isSuccessAttempt, hs] at hfail0
          | false =>
            obtain ⟨h1, h2, h3⟩ :=
              ih (i + 1) (fs.set (local_path ++ ".part") (some written.flatten)) j'
                (by omega) hsucc' hbefore'
            rw [transferLoop_streamFail gets local_path i n fs status written hg hs]
            refine ⟨h1, ?_, ?_⟩
            · simp [List.count_cons, h2]
            · simp [List.countP_cons, List.count_cons, h3, hg, hasDelayAfter, hs]
        · obtain ⟨h1, h2, h3⟩ := ih (i + 1) fs j' (by omega) hsucc' hbefore'
          rw [transferLoop_badStatus gets local_path i n fs status written ok hg hs]
          refine ⟨h1, ?_, ?_⟩
          · simp [List.count_cons, h2]
          · simp [List.countP_cons, List.count_cons, h3, hg, hasDelayAfter, hs]

/-! Branch equations for `download_file`. -/

theorem download_file_mkdirExc (env : NetEnv) (local_path : String) (fs : Fs)
    (hm : env.mkdirExc = true) :
    download_file env local_path fs = ⟨Except.error (), fs, []⟩ := by
  unfold download_file
  rw [hm]
  rfl

theorem download_file_skip (env : NetEnv) (local_path : String) (fs : Fs)
    (hm : env.mkdirExc = false)
    (hskip : skipCheck fs local_path (contentLengthOf (try_head env.heads).1) = true) :
    download_file env local_path fs =
      ⟨Except.ok Outcome.skipped, fs, (try_head env.heads).2 ++ [Event.pbarUpdate]⟩ := by
  unfold download_file
  rw [hm]
  simp [hskip]

theorem download_file_transfer (env : NetEnv) (local_path : String) (fs : Fs)
    (hm : env.mkdirExc = false)
    (hskip : skipCheck fs local_path (contentLengthOf (try_head env.heads).1) = false) :
    download_file env local_path fs =
      ⟨Except.ok (transferLoop env.gets local_path 0 RETRY fs).1,
       (transferLoop env.gets local_path 0 RETRY fs).2.1,
       (try_head env.heads).2 ++ (transferLoop env.gets local_path 0 RETRY fs).2.2⟩ := by
  unfold download_file
  rw [hm]
  simp [hskip]

/-- C1: the body of a GET is streamed only to the temporary sibling path
`localPath ++ ".part"`, and `localPath` changes only by the atomic
replace after a full body was streamed: for every server behaviour and
every starting filesystem, (i) no path other than `localPath` and its
temp sibling changes, (ii) unless the outcome is `downloaded` the
content at `localPath` is exactly what it was before — a prior
successful download is never truncated or zeroed by an interrupted or
retried attempt — and (iii) when the outcome is `downloaded`,
`localPath` holds the complete body of a 200/206 attempt whose
streaming finished. -/
theorem c1_atomic_replace (env : NetEnv) (local_path : String) (fs : Fs) :
    (∀ p, p ≠ local_path → p ≠ local_path ++ ".part" →
      (download_file env local_path fs).fs p = fs p) ∧
    ((download_file env local_path fs).result ≠ Except.ok Outcome.downloaded →
      (download_file env local_path fs).fs local_path = fs local_path) ∧
    ((download_file env local_path fs).result = Except.ok Outcome.downloaded →
      ∃ j status written, j < RETRY ∧
        env.gets j = GetAttempt.resp status written true ∧
        (status = 200 ∨ status = 206) ∧
        (download_file env local_path fs).fs local_path = some written.flatten) := by
  by_cases hm : env.mkdirExc = true
  · rw [download_file_mkdirExc env local_path fs hm]
    exact ⟨fun p _ _ => rfl, fun _ => rfl, fun h => by simp at h⟩
  · have hm' : env.mkdirExc = false := by simpa using hm
    by_cases hskip : skipCheck fs local_path (contentLengthOf (try_head env.heads).1) = true
    · rw [download_file_skip env local_path fs hm' hskip]
      exact ⟨fun p _ _ => rfl, fun _ => rfl, fun h => by simp at h⟩
    · have hskip' : skipCheck fs local_path (contentLengthOf (try_head env.heads).1) = false := by
        simpa using hskip
      rw [download_file_transfer env local_path fs hm' hskip']
      refine ⟨fun p hp1 hp2 => transferLoop_other_paths env.gets local_path p hp1 hp2 RETRY 0 fs,
        ?_, ?_⟩
      · intro hne
        rcases transferLoop_result_cases env.gets local_path RETRY 0 fs with hdl | hfl
        · exact absurd (by simp [hdl]) hne
        · exact transferLoop_failed_local env.gets local_path RETRY 0 fs hfl
      · intro hdl
        have hdl' : (transferLoop env.gets local_path 0 RETRY fs).1 = Outcome.downloaded := by
          simpa using hdl
        obtain ⟨j, status, written, hj, hga, hst, hfs⟩ :=
          transferLoop_downloaded_local env.gets local_path RETRY 0 fs hdl'
        exact ⟨j, status, written, hj, by simpa using hga, hst, hfs⟩

/-- C1 witness: a server whose first GET succeeds with body chunks
`[7]`, `[8]`; the final file is the complete body `[7, 8]`. -/
theorem c1_witness :
    ∃ j status written, j < RETRY ∧
      (fun _ => GetAttempt.resp 200 [[7], [8]] true : Nat → GetAttempt) j =
        GetAttempt.resp status written true ∧
      (status = 200 ∨ status = 206) ∧
      (download_file ⟨false, fun _ => HeadAttempt.exc, fun _ => GetAttempt.resp 200 [[7], [8]] true⟩
        "/data/f.txt" (fun _ => none)).fs "/data/f.txt" = some [7, 8] := by
  have h := (c1_atomic_replace
    ⟨false, fun _ => HeadAttempt.exc, fun _ => GetAttempt.resp 200 [[7], [8]] true⟩
    "/data/f.txt" (fun _ => none)).2.2 (by rfl)
  obtain ⟨j, status, written, hj, hga, hst, hfs⟩ := h
  refine ⟨j, status, written, hj, hga, hst, ?_⟩
  rw [hfs]
  have : written = [[7], [8]] := by
    have := hga
    simp at this
    exact this.2.symm
  rw [this]
  rfl

/-- C3: with an existing local file whose size equals the
`Content-Length` reported by a 200 HEAD probe, `download_file` returns
`skipped`, issues no GET request, and leaves the filesystem untouched. -/
theorem c3_skip_no_get (env : NetEnv) (local_path : String) (fs : Fs)
    (data : List Nat) (cl : String) (n : Int)
    (hm : env.mkdirExc = false)
    (hhead : (try_head env.heads).1 = some ⟨200, some cl⟩)
    (hparse : pythonInt cl = some n)
    (hfile : fs local_path = some data)
    (hsize : (data.length : Int) = n) :
    (download_file env local_path fs).result = Except.ok Outcome.skipped ∧
    (download_file env local_path fs).events.count Event.getAttempt = 0 ∧
    (download_file env local_path fs).fs = fs := by
  have hcl : contentLengthOf (try_head env.heads).1 = some cl := by
    rw [hhead]
    rfl
  have hskip : skipCheck fs local_path (contentLengthOf (try_head env.heads).1) = true := by
    rw [hcl]
    unfold skipCheck
    rw [hfile]
    dsimp only
    rw [hparse]
    simp [hsize]
  rw [download_file_skip env local_path fs hm hskip]
  refine ⟨rfl, ?_, rfl⟩
  have hhe := (tryHeadLoop_events env.heads RETRY 0).1
  simp [List.count_append, try_head] at hhe ⊢
  simpa using hhe

/-- C3 witness: local file of size 100 (100 bytes of `0`), HEAD reports
`Content-Length: 100`: outcome `Skipped`, no GET issued. -/
theorem c3_witness :
    (download_file
      ⟨false, fun _ => HeadAttempt.resp ⟨200, some "100"⟩, fun _ => GetAttempt.exc⟩
      "/data/f.txt"
      (fun p => if p = "/data/f.txt" then some (List.replicate 100 0) else none)).result =
        Except.ok Outcome.skipped ∧
    (download_file
      ⟨false, fun _ => HeadAttempt.resp ⟨200, some "100"⟩, fun _ => GetAttempt.exc⟩
      "/data/f.txt"
      (fun p => if p = "/data/f.txt" then some (List.replicate 100 0) else none)).events.count
        Event.getAttempt = 0 := by
  have h := c3_skip_no_get
    ⟨false, fun _ => HeadAttempt.resp ⟨200, some "100"⟩, fun _ => GetAttempt.exc⟩
    "/data/f.txt"
    (fun p => if p = "/data/f.txt" then some (List.replicate 100 0) else none)
    (List.replicate 100 0) "100" 100 rfl (by rfl) (by rfl) (by rfl) (by simp)
  exact ⟨h.1, h.2.1⟩

/-- C4 counterexample: when `os.makedirs` raises (e.g. permission
denied), the exception escapes `download_file` instead of being
absorbed into a `Failed` outcome — `ensure_dir` runs outside every
`try` block. -/
theorem c4_counterexample :
    (download_file ⟨true, fun _ => HeadAttempt.exc, fun _ => GetAttempt.exc⟩
      "/data/f.txt" (fun _ => none)).result = Except.error () := rfl

/-- C4 amended: every error during the skip check or the transfer —
including a temp-file write failure mid-stream — is absorbed and
surfaced as an outcome, but only provided `ensure_dir`'s directory
creation does not raise: an exception there propagates to the caller
(and `main`'s `f.result()` re-raises it, aborting the run). -/
theorem c4_absorbs_after_mkdir (env : NetEnv) (local_path : String) (fs : Fs)
    (hm : env.mkdirExc = false) :
    ∃ o : Outcome, (download_file env local_path fs).result = Except.ok o := by
  by_cases hskip : skipCheck fs local_path (contentLengthOf (try_head env.heads).1) = true
  · exact ⟨Outcome.skipped, by rw [download_file_skip env local_path fs hm hskip]⟩
  · refine ⟨(transferLoop env.gets local_path 0 RETRY fs).1, ?_⟩
    rw [download_file_transfer env local_path fs hm (by simpa using hskip)]

/-- C4 witness: with directory creation succeeding and every GET
raising a transport exception, an outcome (in fact `failed`) is
returned rather than an exception. -/
theorem c4_witness :
    ∃ o : Outcome,
      (download_file ⟨false, fun _ => HeadAttempt.exc, fun _ => GetAttempt.exc⟩
        "/data/f.txt" (fun _ => none)).result = Except.ok o :=
  c4_absorbs_after_mkdir
    ⟨false, fun _ => HeadAttempt.exc, fun _ => GetAttempt.exc⟩
    "/data/f.txt" (fun _ => none) rfl

/-- C7 counterexample: with every GET answered by status 503, the
transfer phase makes all `RETRY = 3` attempts and fails, but executes
no inter-attempt delay at all — `time.sleep(1)` sits only in the
`except` branch, so a bad status code retries immediately, refuting
"every other status code … triggers another attempt preceded by a fixed
inter-attempt delay". -/
theorem c7_counterexample :
    (transferLoop (fun _ => GetAttempt.resp 503 [] true) "/data/f.txt" 0 RETRY
      (fun _ => none)).1 = Outcome.failed ∧
    (transferLoop (fun _ => GetAttempt.resp 503 [] true) "/data/f.txt" 0 RETRY
      (fun _ => none)).2.2.count Event.getAttempt = 3 ∧
    (transferLoop (fun _ => GetAttempt.resp 503 [] true) "/data/f.txt" 0 RETRY
      (fun _ => none)).2.2.count Event.sleepEvent = 0 :=
  ⟨rfl, rfl, rfl⟩

/-- C7 amended: the transfer phase makes up to `RETRY` streaming GET
attempts; a 200/206 response that streams to completion is success; any
other status code and any transport exception trigger another attempt,
but the fixed 1-second delay precedes only the retries caused by
exceptions — a non-2xx status retries immediately with no delay; with
the attempts exhausted the outcome is `failed`. -/
theorem c7_retry_delay_behaviour (gets : Nat → GetAttempt) (local_path : String) (fs : Fs) :
    ((transferLoop gets local_path 0 RETRY fs).2.2.count Event.getAttempt ≤ RETRY) ∧
    ((∀ j, j < RETRY → isSuccessAttempt (gets j) = false) →
      (transferLoop gets local_path 0 RETRY fs).1 = Outcome.failed ∧
      (transferLoop gets local_path 0 RETRY fs).2.2.count Event.getAttempt = RETRY ∧
      (transferLoop gets local_path 0 RETRY fs).2.2.count Event.sleepEvent =
        ((List.range RETRY).map gets).countP (fun a => hasDelayAfter a)) ∧
    (∀ j, j < RETRY → isSuccessAttempt (gets j) = true →
      (∀ k, k < j → isSuccessAttempt (gets k) = false) →
      (transferLoop gets local_path 0 RETRY fs).1 = Outcome.downloaded ∧
      (transferLoop gets local_path 0 RETRY fs).2.2.count Event.getAttempt = j + 1 ∧
      (transferLoop gets local_path 0 RETRY fs).2.2.count Event.sleepEvent =
        ((List.range j).map gets).countP (fun a => hasDelayAfter a)) := by
  refine ⟨transferLoop_get_bound gets local_path RETRY 0 fs, ?_, ?_⟩
  · intro hnone
    have h := transferLoop_noSuccess gets local_path RETRY 0 fs
      (fun j hj => by simpa using hnone j hj)
    simpa using h
  · intro j hj hsucc hbefore
    have h := transferLoop_firstSuccess gets local_path RETRY 0 fs j hj
      (by simpa using hsucc) (fun k hk => by simpa using hbefore k hk)
    simpa using h

/-- C7 witness: attempt 0 raises, attempt 1 gets 503, attempt 2 succeeds
with 200: the outcome is `downloaded` after 3 GETs and exactly one delay
(the one after the exception; none after the 503). -/
theorem c7_witness :
    (transferLoop
      (fun i => if i = 0 then GetAttempt.exc
        else if i = 1 then GetAttempt.resp 503 [] true
        else GetAttempt.resp 200 [[5]] true) "/data/f.txt" 0 RETRY (fun _ => none)).1 =
      Outcome.downloaded ∧
    (transferLoop
      (fun i => if i = 0 then GetAttempt.exc
        else if i = 1 then GetAttempt.resp 503 [] true
        else GetAttempt.resp 200 [[5]] true) "/data/f.txt" 0 RETRY
        (fun _ => none)).2.2.count Event.getAttempt = 3 ∧
    (transferLoop
      (fun i => if i = 0 then GetAttempt.exc
        else if i = 1 then GetAttempt.resp 503 [] true
        else GetAttempt.resp 200 [[5]] true) "/data/f.txt" 0 RETRY
        (fun _ => none)).2.2.count Event.sleepEvent = 1 := by
  have h := (c7_retry_delay_behaviour
    (fun i => if i = 0 then GetAttempt.exc
      else if i = 1 then GetAttempt.resp 503 [] true
      else GetAttempt.resp 200 [[5]] true) "/data/f.txt" (fun _ => none)).2.2
    2 (by decide) (by decide) (by decide)
  exact ⟨h.1, h.2.1, by rw [h.2.2]; rfl⟩

/-- C8: every call of `download_file` that produces an outcome —
`downloaded`, `skipped` or `failed`, through whichever branch —
updates the progress bar exactly once. -/
theorem c8_progress_once (env : NetEnv) (local_path : String) (fs : Fs)
    (o : Outcome) (hres : (download_file env local_path fs).result = Except.ok o) :
    (download_file env local_path fs).events.count Event.pbarUpdate = 1 := by
  by_cases hm : env.mkdirExc = true
  · rw [download_file_mkdirExc env local_path fs hm] at hres
    simp at hres
  · have hm' : env.mkdirExc = false := by simpa using hm
    by_cases hskip : skipCheck fs local_path (contentLengthOf (try_head env.heads).1) = true
    · rw [download_file_skip env local_path fs hm' hskip]
      have hhe := (tryHeadLoop_events env.heads RETRY 0).2
      simp [List.count_append, try_head] at hhe ⊢
      simpa using hhe
    · rw [download_file_transfer env local_path fs hm' (by simpa using hskip)]
      have hhe := (tryHeadLoop_events env.heads RETRY 0).2
      have hts := transferLoop_pbar_once env.gets local_path RETRY 0 fs
      simp [List.count_append, try_head] at hhe ⊢
      rw [hhe, hts]

/-- C8 witness: GET returns 503 on all three attempts: the outcome is
`failed` and the progress bar is updated exactly once. -/
theorem c8_witness :
    (download_file ⟨false, fun _ => HeadAttempt.exc, fun _ => GetAttempt.resp 503 [] true⟩
      "/data/f.txt" (fun _ => none)).result = Except.ok Outcome.failed ∧
    (download_file ⟨false, fun _ => HeadAttempt.exc, fun _ => GetAttempt.resp 503 [] true⟩
      "/data/f.txt" (fun _ => none)).events.count Event.pbarUpdate = 1 :=
  ⟨rfl, c8_progress_once
    ⟨false, fun _ => HeadAttempt.exc, fun _ => GetAttempt.resp 503 [] true⟩
    "/data/f.txt" (fun _ => none) Outcome.failed rfl⟩

/-- C10: `is_same_host_and_path` compares URL paths by raw string prefix,
not by path-segment prefix: whenever base and candidate agree on scheme
and netloc and the candidate's path extends the base's path as a string
(the base path not ending in `/`), the candidate is accepted as
in-boundary — even when the extension continues the base path's last
segment rather than starting a new one. -/
theorem c10_raw_string_prefix_boundary (base cand suffix : String)
    (hscheme : (urlsplit cand).scheme = (urlsplit base).scheme)
    (hhost : (urlsplit cand).netloc = (urlsplit base).netloc)
    (hslash : pyEndsWith (urlsplit base).path "/" = false)
    (hpath : (urlsplit cand).path = (urlsplit base).path ++ suffix) :
    is_same_host_and_path base cand = true := by
  unfold is_same_host_and_path
  simp only [hscheme, hhost, ne_eq, not_true_eq_false, false_or, if_false]
  rw [hpath]
  exact pyStartsWith_append _ _

/-- C10 witness: base path `/a` does not end in `/`; the sibling
directory candidate `http://x/abc/f` (path `/abc/f = /a ++ bc/f`) is
accepted as in-boundary. -/
theorem c10_witness :
    (urlsplit "http://x/abc/f").scheme = (urlsplit "http://x/a").scheme ∧
    (urlsplit "http://x/abc/f").netloc = (urlsplit "http://x/a").netloc ∧
    pyEndsWith (urlsplit "http://x/a").path "/" = false ∧
    (urlsplit "http://x/abc/f").path = (urlsplit "http://x/a").path ++ "bc/f" ∧
    is_same_host_and_path "http://x/a" "http://x/abc/f" = true :=
  ⟨by decide, by decide, by decide, by decide,
   c10_raw_string_prefix_boundary "http://x/a" "http://x/abc/f" "bc/f"
     (by decide) (by decide) (by decide) (by decide)⟩

/-- C9: boundary containment does not survive percent-decoding: the URL
`http://x/a/%2e%2e/secret` passes `is_same_host_and_path` against the
root `http://x/a/` (its raw path starts with `/a/`), yet
`normalize_local_path` percent-decodes the suffix after the prefix
strip, so the mapped local path contains a `..` segment and resolves
outside the local root `/dst`. -/
theorem c9_percent_decoding_escapes_root :
    is_same_host_and_path "http://x/a/" "http://x/a/%2e%2e/secret" = true ∧
    normalize_local_path "http://x/a/" "http://x/a/%2e%2e/secret" "/dst" =
      "/dst/../secret" ∧
    staysUnder "/dst"
      (normalize_local_path "http://x/a/" "http://x/a/%2e%2e/secret" "/dst") =
      false := by
  refine ⟨by decide, by decide, by decide⟩

/-- C6 counterexample: `normalize_local_path` reads only the URL's path,
so the two distinct in-boundary URLs `http://x/a/b.txt` and
`http://x/a/b.txt?C=M` (a query-string variant, as emitted by directory
listings' sort links) map to the same local path: injectivity in
`fileURL` fails. -/
theorem c6_counterexample :
    is_same_host_and_path "http://x/a/" "http://x/a/b.txt" = true ∧
    is_same_host_and_path "http://x/a/" "http://x/a/b.txt?C=M" = true ∧
    ("http://x/a/b.txt" : String) ≠ "http://x/a/b.txt?C=M" ∧
    normalize_local_path "http://x/a/" "http://x/a/b.txt" "/dst" =
      normalize_local_path "http://x/a/" "http://x/a/b.txt?C=M" "/dst" := by
  refine ⟨by decide, by decide, by decide, by decide⟩

/-- C6 amended: `normalize_local_path` is deterministic — equal inputs
give equal outputs — but it is not injective in `fileURL` for fixed
`remoteRoot` and `localRoot`: two distinct discovered (in-boundary) file
URLs can map to the same local path, e.g. when they differ only in
query string. -/
theorem c6_deterministic_not_injective :
    (∀ b₁ b₂ f₁ f₂ r₁ r₂ : String, b₁ = b₂ → f₁ = f₂ → r₁ = r₂ →
      normalize_local_path b₁ f₁ r₁ = normalize_local_path b₂ f₂ r₂) ∧
    ∃ f₁ f₂ : String, f₁ ≠ f₂ ∧
      is_same_host_and_path "http://x/a/" f₁ = true ∧
      is_same_host_and_path "http://x/a/" f₂ = true ∧
      normalize_local_path "http://x/a/" f₁ "/dst" =
        normalize_local_path "http://x/a/" f₂ "/dst" := by
  constructor
  · intro b₁ b₂ f₁ f₂ r₁ r₂ hb hf hr
    rw [hb, hf, hr]
  · exact ⟨"http://x/a/b.txt", "http://x/a/b.txt?C=M",
      by decide, by decide, by decide, by decide⟩

end SiteDownload
